import Mathlib

/-!
Shallow embedding of `src/scripts/unity_asset_extractor.py`
(class `UnityToDreamcastConverter`) and proofs about its asset
transcoding pipeline.

Modelling conventions:
* Machine integers are `Nat`; a value packed into a `w`-bit field is
  reduced byte-by-byte (equivalently `% 2^w`).
* A Python `float` destined for a 32-bit IEEE field is modelled by its
  32-bit pattern as a `Nat`; `struct.pack` on floats never fails, so the
  pattern is serialised as four little-endian bytes.
* Fallible code returns its bytes written so far together with
  `Option String` (the raised exception), mirroring that Python writes
  to an open file handle incrementally and an exception leaves the
  already-written bytes on disk when the `with` block closes the file.
* The filesystem is a total function from structured paths to optional
  byte contents; external collaborators (PIL resampling, PNG encoding,
  external compressor executables, JSON/float rendering) are parameters
  gathered in an `Env` structure, as the spec treats them as opaque
  collaborators.
* `math.log2` / `math.ceil` on positive integers are modelled exactly by
  `Nat.clog 2`, the ceiling base-2 logarithm.
-/

namespace Dreamcast

/-- Little-endian bytes of a 16-bit field, as written by
`struct.pack` with format `<H` (each output byte reduced mod 256). -/
def le16 (n : Nat) : List Nat := [n % 256, n / 256 % 256]

/-- Little-endian bytes of a 32-bit field, format `<I` / `<L`. -/
def le32 (n : Nat) : List Nat :=
  [n % 256, n / 256 % 256, n / 65536 % 256, n / 16777216 % 256]

/-- Read back a little-endian 16-bit field at byte offset `i`. -/
def readLE16 (bs : List Nat) (i : Nat) : Nat :=
  bs.getD i 0 + 256 * bs.getD (i + 1) 0

/-- Read back a little-endian 32-bit field at byte offset `i`. -/
def readLE32 (bs : List Nat) (i : Nat) : Nat :=
  bs.getD i 0 + 256 * bs.getD (i + 1) 0 + 65536 * bs.getD (i + 2) 0 +
    16777216 * bs.getD (i + 3) 0

/-- The RGB565 pixel packing from `png_to_raw_rgb565` and
`create_simple_pvr`: `rgb565 = ((r >> 3) << 11) | ((g >> 2) << 5) | (b >> 3)`. -/
def rgb565 (r g b : Nat) : Nat :=
  (((r >>> 3) <<< 11) ||| ((g >>> 2) <<< 5)) ||| (b >>> 3)

/-- `nearest_power_of_2`: per axis `min(2 ** math.ceil(math.log2(dim)), max_size)`.
The float computation `2 ** ceil(log2 d)` on a positive integer `d` is
modelled exactly by `2 ^ Nat.clog 2 d`. -/
def nearest_power_of_2 (max_size : Nat) (size : Nat × Nat) : Nat × Nat :=
  (min (2 ^ Nat.clog 2 size.1) max_size, min (2 ^ Nat.clog 2 size.2) max_size)

/-- The invalid-filename characters of `sanitize_filename`. -/
def invalidChars : List Char := ['<', '>', ':', '"', '/', '\\', '|', '?', '*']

/-- Python whitespace stripped by `str.strip` (ASCII portion). -/
def isPyStripSpace (c : Char) : Bool :=
  c = ' ' ∨ c = '\t' ∨ c = '\n' ∨ c = '\r' ∨ c = '\x0b' ∨ c = '\x0c'

/-- `str.strip()`: drop leading and trailing whitespace. -/
def pyStrip (s : List Char) : List Char :=
  ((s.dropWhile isPyStripSpace).reverse.dropWhile isPyStripSpace).reverse

/-- One replace pass, substituting one invalid character by an underscore. -/
def replaceChar (c : Char) (s : List Char) : List Char :=
  s.map (fun x => if x = c then '_' else x)

/-- `sanitize_filename`: successive `replace` of each invalid character
by an underscore, then `strip()`. -/
def sanitize_filename (name : String) : String :=
  ⟨pyStrip (invalidChars.foldl (fun acc c => replaceChar c acc) name.data)⟩

/-- A partially completed binary write: the bytes already written to the
open file, and the exception raised (if any).  Python writes through an
open handle, so on an exception the earlier bytes remain on disk. -/
abbrev WriteResult := List Nat × Option String

/-- Sequence two write steps: if the first raised, the second never runs. -/
def wseq (x y : WriteResult) : WriteResult :=
  match x.2 with
  | some e => (x.1, some e)
  | none => (x.1 ++ y.1, y.2)

/-- A packed 32-bit field, formats I and L: four little-endian bytes, or
a struct.error when the value does not fit in 32 bits. -/
def pack32 (n : Nat) : WriteResult :=
  if n < 4294967296 then (le32 n, none) else ([], some "struct.error: I format")

/-- The vertex loop of `export_dreamcast_mesh`: slices of three floats,
each packed with `<fff`.  A trailing slice of fewer than three elements
makes the tuple unpacking `x, y, z = slice` raise `ValueError`.
Floats (32-bit patterns) always pack. -/
def packTriplesF32 : List Nat → WriteResult
  | [] => ([], none)
  | [_] => ([], some "ValueError: not enough values to unpack")
  | [_, _] => ([], some "ValueError: not enough values to unpack")
  | x :: y :: z :: rest =>
    let r := packTriplesF32 rest
    (le32 x ++ le32 y ++ le32 z ++ r.1, r.2)

/-- The index loop of `export_dreamcast_mesh`: slices of three indices
packed with `<HHH`; `struct.pack` raises (writing none of the six bytes)
when any of the three exceeds 65535, and a short trailing slice raises
`ValueError` at unpacking. -/
def packTriples16 : List Nat → WriteResult
  | [] => ([], none)
  | [_] => ([], some "ValueError: not enough values to unpack")
  | [_, _] => ([], some "ValueError: not enough values to unpack")
  | a :: b :: c :: rest =>
    if a < 65536 ∧ b < 65536 ∧ c < 65536 then
      let r := packTriples16 rest
      (le16 a ++ le16 b ++ le16 c ++ r.1, r.2)
    else
      ([], some "struct.error: H format requires 0 <= number <= 65535")

/-- The UV loop of `export_dreamcast_mesh`: slices of two floats packed
with `<ff`; a trailing singleton raises `ValueError` at unpacking. -/
def packPairsF32 : List Nat → WriteResult
  | [] => ([], none)
  | [_] => ([], some "ValueError: not enough values to unpack")
  | u :: v :: rest =>
    let r := packPairsF32 rest
    (le32 u ++ le32 v ++ r.1, r.2)

/-- A decoded Unity mesh record as consumed by `export_dreamcast_mesh`:
a flat vertex buffer of 32-bit float patterns, a flat index buffer, and
an optional flat UV buffer (`mesh_data.uv` may be absent or empty, both
falsy in the `if hasattr(...) and mesh_data.uv` test). -/
structure DecodedMesh where
  name : String
  vertices : List Nat
  indices : List Nat
  uv : Option (List Nat)
deriving DecidableEq

/-- The bytes DCM plus 0x01 (magic plus version) written first. -/
def dcmMagic : List Nat := [0x44, 0x43, 0x4D, 0x01]

/-- The UV section: when `mesh_data.uv` is present and non-empty, the
pair count `len(uv) // 2` then the pairs; otherwise a zero count. -/
def uvSection : Option (List Nat) → WriteResult
  | some (u :: us) => wseq (pack32 ((u :: us).length / 2)) (packPairsF32 (u :: us))
  | _ => (le32 0, none)

/-- `export_dreamcast_mesh`: magic+version, vertex count `len // 3`,
vertex triples, face count `len // 3`, index triples, then the UV
section.  Returns the bytes actually written before any exception. -/
def export_dreamcast_mesh (m : DecodedMesh) : WriteResult :=
  wseq (dcmMagic, none) <|
    wseq (pack32 (m.vertices.length / 3)) <|
      wseq (packTriplesF32 m.vertices) <|
        wseq (pack32 (m.indices.length / 3)) <|
          wseq (packTriples16 m.indices) (uvSection m.uv)

/-- Well-formedness of the optional UV buffer: even length, count in
32-bit range; an absent buffer is fine. -/
def uvOk : Option (List Nat) → Prop
  | some l => l.length % 2 = 0 ∧ l.length / 2 < 4294967296
  | none => True

instance : (o : Option (List Nat)) → Decidable (uvOk o)
  | some _ => inferInstanceAs (Decidable (_ ∧ _))
  | none => inferInstanceAs (Decidable True)

/-- Well-formedness of a `DecodedMesh` under which the binary encode
completes: triple/pair grouping divides evenly, counts fit 32 bits, and
every index fits 16 bits. -/
def meshOk (m : DecodedMesh) : Prop :=
  m.vertices.length % 3 = 0 ∧ m.vertices.length / 3 < 4294967296 ∧
  m.indices.length % 3 = 0 ∧ m.indices.length / 3 < 4294967296 ∧
  (∀ i ∈ m.indices, i < 65536) ∧ uvOk m.uv

instance (m : DecodedMesh) : Decidable (meshOk m) :=
  decidable_of_iff
    (m.vertices.length % 3 = 0 ∧ m.vertices.length / 3 < 4294967296 ∧
      m.indices.length % 3 = 0 ∧ m.indices.length / 3 < 4294967296 ∧
      (∀ i ∈ m.indices, i < 65536) ∧ uvOk m.uv) Iff.rfl

/-- The byte layout the specification describes for the binary mesh
container, written as one concatenation (this definition follows the
spec text, for comparison with `export_dreamcast_mesh`). -/
def meshSpecBytes (m : DecodedMesh) : List Nat :=
  dcmMagic ++ le32 (m.vertices.length / 3) ++ m.vertices.flatMap le32 ++
    le32 (m.indices.length / 3) ++ m.indices.flatMap le16 ++
    (match m.uv with
     | some (u :: us) => le32 ((u :: us).length / 2) ++ (u :: us).flatMap le32
     | _ => le32 0)

/-- The final bytes produced by the Python wave module for 16-bit PCM:
`RIFF` chunk, `fmt ` chunk (PCM tag 1, channels, rate, byte rate, block
align, 16 bits per sample), `data` chunk, then the raw payload.  The
header is patched on close so the data-length fields equal the number of
payload bytes actually written, aligned or not. -/
def wavBytes (channels rate : Nat) (data : List Nat) : List Nat :=
  [0x52, 0x49, 0x46, 0x46] ++ le32 (36 + data.length) ++
    [0x57, 0x41, 0x56, 0x45] ++ [0x66, 0x6D, 0x74, 0x20] ++ le32 16 ++
    le16 1 ++ le16 channels ++ le32 rate ++ le32 (channels * 2 * rate) ++
    le16 (channels * 2) ++ le16 16 ++ [0x64, 0x61, 0x74, 0x61] ++
    le32 data.length ++ data

/-- `raw_to_wav` via the `wave` module: `setnchannels` rejects a zero
channel count and `setframerate` a zero rate before anything is written;
a header field overflowing its `struct` format raises after only the
literal `RIFF` tag has been written; otherwise the full container is
produced.  No validation of the payload (emptiness or alignment with
the channel count) is performed anywhere. -/
def raw_to_wav (channels rate : Nat) (data : List Nat) : WriteResult :=
  if channels = 0 then ([], some "wave.Error: bad # of channels")
  else if rate = 0 then ([], some "wave.Error: bad frame rate")
  else if channels ≥ 65536 ∨ channels * 2 ≥ 65536 ∨ rate ≥ 4294967296 ∨
      channels * 2 * rate ≥ 4294967296 ∨ 36 + data.length ≥ 4294967296 then
    ([0x52, 0x49, 0x46, 0x46], some "struct.error: header field overflow")
  else (wavBytes channels rate data, none)

/-- A decoded texture image as a pixel grid: dimensions and the
row-major RGB triples (`img.getpixel` over `y` then `x`). -/
structure Img where
  width : Nat
  height : Nat
  pixels : List (Nat × Nat × Nat)
deriving DecidableEq

/-- A decoded `Texture2D` record; `image` is `None` when the object has
no image data. -/
structure DecodedTexture where
  name : String
  image : Option Img
deriving DecidableEq

/-- A decoded `AudioClip` record: raw sample bytes plus rate/channels. -/
structure DecodedAudio where
  name : String
  frequency : Nat
  channels : Nat
  samples : List Nat
deriving DecidableEq

/-- `png_to_raw_rgb565`: every pixel packed to RGB565, little-endian
16-bit each, row-major. -/
def png_to_raw_rgb565 (img : Img) : List Nat :=
  img.pixels.flatMap (fun p => le16 (rgb565 p.1 p.2.1 p.2.2))

/-- A packed 16-bit field, format H: two little-endian bytes, or a
struct.error when the value does not fit in 16 bits. -/
def pack16 (n : Nat) : WriteResult :=
  if n < 65536 then (le16 n, none)
  else ([], some "struct.error: H format requires 0 <= number <= 65535")

/-- The pixel loop of `create_simple_pvr`: each packed RGB565 word
written with format H.  For 8-bit channels (the only values a PIL RGB
image yields) the word always fits 16 bits. -/
def packPixels16 : List (Nat × Nat × Nat) → WriteResult
  | [] => ([], none)
  | p :: rest => wseq (pack16 (rgb565 p.1 p.2.1 p.2.2)) (packPixels16 rest)

/-- `create_simple_pvr`: `PVRV` magic, 32-bit header size 8, 16-bit
width and height (format H — raising when a dimension does not fit 16
bits, with the bytes already written remaining in the file), format
byte 1 (RGB565), data-type byte 1, two padding bytes, then the packed
pixels row-major. -/
def create_simple_pvr (img : Img) : WriteResult :=
  wseq ([0x50, 0x56, 0x52, 0x56] ++ le32 8, none) <|
    wseq (pack16 img.width) <|
      wseq (pack16 img.height) <|
        wseq ([0x01] ++ [0x01] ++ [0x00, 0x00], none) (packPixels16 img.pixels)

/-- The complete fallback PVR container (the bytes `create_simple_pvr`
writes when every field packs). -/
def pvrContainer (img : Img) : List Nat :=
  [0x50, 0x56, 0x52, 0x56] ++ le32 8 ++ le16 img.width ++ le16 img.height ++
    [0x01] ++ [0x01] ++ [0x00, 0x00] ++ png_to_raw_rgb565 img

/-- An output path: kind subdirectory, filename stem, extension. -/
structure Path where
  dir : String
  stem : String
  ext : String
deriving DecidableEq

/-- The output tree: contents (as bytes) per path, `none` if absent. -/
def Store := Path → Option (List Nat)

/-- A filesystem effect: a file write (create/overwrite) or removal. -/
inductive FsOp where
  | fwrite (p : Path) (v : List Nat)
  | fremove (p : Path)

/-- The path an effect touches. -/
def FsOp.path : FsOp → Path
  | .fwrite p _ => p
  | .fremove p => p

/-- Apply one effect to the store. -/
def applyOp (s : Store) : FsOp → Store
  | .fwrite p v => fun q => if q = p then some v else s q
  | .fremove p => fun q => if q = p then none else s q

/-- Apply a sequence of effects in order. -/
def applyOps (ops : List FsOp) (s : Store) : Store :=
  ops.foldl applyOp s

/-- A log record written through `self.logger`. -/
inductive LogEntry where
  | info (msg : String)
  | warning (msg : String)
  | error (msg : String)
deriving DecidableEq

/-- Bytes of a text file produced with `write` of a string. -/
def strBytes (s : String) : List Nat := s.data.map Char.toNat

/-- A material property value as classified by `extract_material`:
a primitive (int/float/str/bool) kept verbatim, a structured value
(one with `__dict__`) rendered to its string form, or anything else,
which is silently dropped. -/
inductive PropVal where
  | pnum (bits : Nat)
  | pstr (s : String)
  | pbool (b : Bool)
  | pobj (rendered : String)
  | pskip
deriving DecidableEq

/-- A decoded `Material` record. -/
structure DecodedMaterial where
  name : String
  shader : String
  properties : List (String × PropVal)
deriving DecidableEq

/-- The property projection of `extract_material`: primitives verbatim,
`__dict__`-bearing values as strings, others dropped. -/
def projectProps : List (String × PropVal) → List (String × PropVal)
  | [] => []
  | (k, PropVal.pnum n) :: rest => (k, PropVal.pnum n) :: projectProps rest
  | (k, PropVal.pstr s) :: rest => (k, PropVal.pstr s) :: projectProps rest
  | (k, PropVal.pbool b) :: rest => (k, PropVal.pbool b) :: projectProps rest
  | (k, PropVal.pobj r) :: rest => (k, PropVal.pstr r) :: projectProps rest
  | (_, PropVal.pskip) :: rest => projectProps rest

/-- One decoded object of the bundle, tagged by `obj.type` as the
dispatch of the driver sees it; `other` is any unhandled type (skipped),
`unreadable` a record whose `obj.read()` itself raises (caught inside
the per-kind extractor). -/
inductive UnityObj where
  | texture2D (t : DecodedTexture)
  | audioClip (a : DecodedAudio)
  | mesh (m : DecodedMesh)
  | material (m : DecodedMaterial)
  | other (kind : String)
  | unreadable (kind : String)

/-- External collaborators and configuration, per §6 of the spec:
which executables `command_exists` finds, the texture size ceiling from
config, PIL resampling and PNG encoding, the external compressor
executables, and JSON rendering.  All are opaque deterministic
functions. -/
structure Env where
  available : List String
  maxSize : Nat
  resample : Img → Nat → Nat → Img
  pngEncode : Img → List Nat
  pvrTool : List Nat → List Nat
  adxEncode : List Nat → List Nat
  soxEncode : List Nat → List Nat
  jsonRender : String → String → List (String × PropVal) → List Nat
  floatRepr : Nat → String

/-- `p == c && startsW ps cs` prefix test used by the substring check. -/
def startsW : List Char → List Char → Bool
  | [], _ => true
  | _ :: _, [] => false
  | p :: ps, c :: cs => p = c && startsW ps cs

/-- Python substring containment, pat in s. -/
def hasSub (pat : List Char) : List Char → Bool
  | [] => pat.isEmpty
  | c :: cs => startsW pat (c :: cs) || hasSub pat cs

/-- Effects and logs of `extract_texture` (with `convert_to_pvr` and
`convert_to_vq`).  The PNG written then re-read by `convert_to_pvr` is
modelled by reusing the decoded pixels (PNG is lossless).  When the
target power-of-two dimensions differ from the source, the resampled
image is saved under `<name>_resized.png` and the `.pvr` output is then
named from that temporary stem; the temporary file is removed afterwards
whenever the final input path contains the substring `resized`.  When
the fallback `create_simple_pvr` raises (a dimension or packed pixel
over 16 bits), the bytes it wrote remain in the partial `.pvr` file, the
temporary-file cleanup and the vq stub never run, and `extract_texture`
catches and logs the error; the `Extracted texture` info line was
already emitted before the conversion started. -/
def textureOps (env : Env) (t : DecodedTexture) : List FsOp × List LogEntry :=
  match t.image with
  | none => ([], [LogEntry.warning "Skipping texture: No image data"])
  | some img =>
    let name := sanitize_filename t.name
    let pngPath : Path := ⟨"textures", name, "png"⟩
    let tgt := nearest_power_of_2 env.maxSize (img.width, img.height)
    let resizing := tgt ≠ (img.width, img.height)
    let workImg := if resizing then env.resample img tgt.1 tgt.2 else img
    let workStem := if resizing then name ++ "_resized" else name
    let resizeOps : List FsOp :=
      if resizing then [FsOp.fwrite ⟨"textures", workStem, "png"⟩ (env.pngEncode workImg)]
      else []
    let headOps : List FsOp :=
      [FsOp.fwrite pngPath (env.pngEncode img)] ++ resizeOps
    let cleanupOps : List FsOp :=
      if hasSub "resized".data workStem.data then [FsOp.fremove ⟨"textures", workStem, "png"⟩]
      else []
    let vqOps : List FsOp :=
      [FsOp.fwrite ⟨"textures", name, "vq.info"⟩
        (strBytes ("VQ compressed version of " ++ name ++ ".png\n"))]
    if "pvr_converter" ∈ env.available then
      (headOps ++
         [FsOp.fwrite ⟨"textures", workStem, "raw"⟩ (png_to_raw_rgb565 workImg),
          FsOp.fwrite ⟨"textures", workStem, "pvr"⟩ (env.pvrTool (png_to_raw_rgb565 workImg)),
          FsOp.fremove ⟨"textures", workStem, "raw"⟩] ++
         cleanupOps ++ vqOps,
       [LogEntry.info ("Extracted texture: " ++ name),
        LogEntry.info "VQ compression placeholder"])
    else
      let r := create_simple_pvr workImg
      match r.2 with
      | none =>
        (headOps ++ [FsOp.fwrite ⟨"textures", workStem, "pvr"⟩ r.1] ++
           cleanupOps ++ vqOps,
         [LogEntry.info ("Extracted texture: " ++ name),
          LogEntry.info "VQ compression placeholder"])
      | some e =>
        (headOps ++ [FsOp.fwrite ⟨"textures", workStem, "pvr"⟩ r.1],
         [LogEntry.info ("Extracted texture: " ++ name),
          LogEntry.error ("Failed to extract texture: " ++ e)])

/-- Effects and logs of `extract_audio` (with `raw_to_wav` and
`convert_to_adpcm`).  On a `raw_to_wav` exception the raw file and the
opened (possibly empty) wav file remain and the error is logged; on
success the raw intermediate is removed, and the wav is removed exactly
when an `.adx` file exists afterwards (`os.path.exists`), which holds if
a compressor ran or a stale file already sat at that path. -/
def audioOps (env : Env) (s : Store) (a : DecodedAudio) : List FsOp × List LogEntry :=
  let name := sanitize_filename a.name
  let rawPath : Path := ⟨"audio", name, "raw"⟩
  let wavPath : Path := ⟨"audio", name, "wav"⟩
  let adxPath : Path := ⟨"audio", name, "adx"⟩
  let w := raw_to_wav a.channels a.frequency a.samples
  match w.2 with
  | some e =>
    ([FsOp.fwrite rawPath a.samples, FsOp.fwrite wavPath w.1],
     [LogEntry.error ("Failed to extract audio: " ++ e)])
  | none =>
    let adxOps : List FsOp × List LogEntry :=
      if "adxtool" ∈ env.available then
        ([FsOp.fwrite adxPath (env.adxEncode w.1)], [])
      else if "sox" ∈ env.available then
        ([FsOp.fwrite adxPath (env.soxEncode w.1)], [])
      else
        ([], [LogEntry.warning "No ADPCM converter available, keeping WAV format"])
    let adxPresent := "adxtool" ∈ env.available ∨ "sox" ∈ env.available ∨
      (s adxPath).isSome
    ([FsOp.fwrite rawPath a.samples, FsOp.fwrite wavPath w.1] ++ adxOps.1 ++
       [FsOp.fremove rawPath] ++
       (if adxPresent then [FsOp.fremove wavPath] else []),
     adxOps.2 ++ [LogEntry.info ("Extracted audio: " ++ name)])

/-- The `v x y z` lines of `export_obj`, one per vertex triple; `fr`
renders a float (bit pattern) the way a Python f-string does.  The
leftover cases are unreachable in the pipeline: `export_obj` only runs
after `export_dreamcast_mesh` succeeded, which forces the grouping. -/
def vertexLines (fr : Nat → String) : List Nat → String
  | x :: y :: z :: rest =>
    "v " ++ fr x ++ " " ++ fr y ++ " " ++ fr z ++ "\n" ++ vertexLines fr rest
  | _ => ""

/-- The `vt u v` lines of `export_obj`. -/
def uvLines (fr : Nat → String) : List Nat → String
  | u :: v :: rest => "vt " ++ fr u ++ " " ++ fr v ++ "\n" ++ uvLines fr rest
  | _ => ""

/-- The `f a b c` lines of `export_obj`, indices shifted to 1-based. -/
def faceLines : List Nat → String
  | a :: b :: c :: rest =>
    "f " ++ toString (a + 1) ++ " " ++ toString (b + 1) ++ " " ++
      toString (c + 1) ++ "\n" ++ faceLines rest
  | _ => ""

/-- `export_obj`: header comments, vertex lines, UV lines when the UV
buffer is present and non-empty, then face lines. -/
def export_obj (fr : Nat → String) (m : DecodedMesh) : List Nat :=
  strBytes ("# Exported from Unity asset\n" ++
    "# Vertices: " ++ toString (m.vertices.length / 3) ++ "\n" ++
    vertexLines fr m.vertices ++
    (match m.uv with | some (u :: us) => uvLines fr (u :: us) | _ => "") ++
    faceLines m.indices)

/-- Effects and logs of `extract_mesh` (with `export_dreamcast_mesh` and
`export_obj`).  On an export exception the partially written `.dcm`
remains (the `with` block closes the file flushing what was written) and
the `.obj` reference export never runs; otherwise both files are
written. -/
def meshOps (fr : Nat → String) (m : DecodedMesh) : List FsOp × List LogEntry :=
  let name := sanitize_filename m.name
  let dcmPath : Path := ⟨"models", name, "dcm"⟩
  let objPath : Path := ⟨"models", name, "obj"⟩
  let r := export_dreamcast_mesh m
  match r.2 with
  | some e =>
    ([FsOp.fwrite dcmPath r.1], [LogEntry.error ("Failed to extract mesh: " ++ e)])
  | none =>
    ([FsOp.fwrite dcmPath r.1, FsOp.fwrite objPath (export_obj fr m)],
     [LogEntry.info ("Extracted mesh: " ++ name)])

/-- Effects and logs of `extract_material`. -/
def materialOps (env : Env) (m : DecodedMaterial) : List FsOp × List LogEntry :=
  let name := sanitize_filename m.name
  ([FsOp.fwrite ⟨"materials", name, "json"⟩
      (env.jsonRender name m.shader (projectProps m.properties))],
   [LogEntry.info ("Extracted material: " ++ name)])

/-- Pipeline state: the output tree and the log, in order. -/
abbrev PState := Store × List LogEntry

/-- Dispatch of one decoded object, per the driver loop of
`extract_assets`: each per-kind extractor catches its own exceptions, so
this step is total; unknown kinds are skipped silently. -/
def processObj (env : Env) (st : PState) (o : UnityObj) : PState :=
  match o with
  | .texture2D t =>
    let r := textureOps env t
    (applyOps r.1 st.1, st.2 ++ r.2)
  | .audioClip a =>
    let r := audioOps env st.1 a
    (applyOps r.1 st.1, st.2 ++ r.2)
  | .mesh m =>
    let r := meshOps env.floatRepr m
    (applyOps r.1 st.1, st.2 ++ r.2)
  | .material m =>
    let r := materialOps env m
    (applyOps r.1 st.1, st.2 ++ r.2)
  | .other _ => st
  | .unreadable kind =>
    (st.1, st.2 ++ [LogEntry.error ("Failed to extract " ++ kind)])

/-- `extract_assets`: a failure to open or parse the bundle (the
`unitypack.load` boundary) is logged and re-raised — it propagates out;
otherwise every object of every contained asset is iterated and
dispatched, and the function returns normally whatever the per-object
outcomes were. -/
def extract_assets (env : Env) (bundle : Except String (List UnityObj))
    (init : PState) : Except String PState :=
  match bundle with
  | .error e => .error e
  | .ok objs => .ok (objs.foldl (processObj env) init)

/-! ### Arithmetic helpers -/

/-- Bitwise or of a left-shifted value with a value below the shift
amount is plain addition (the bit ranges are disjoint). -/
theorem shiftLeft_lor_eq_add : ∀ (n a b : Nat), b < 2 ^ n →
    (a <<< n) ||| b = a * 2 ^ n + b := by
  intro n
  induction n with
  | zero =>
    intro a b h
    have hb : b = 0 := by omega
    subst hb
    simp [Nat.shiftLeft_eq]
  | succ n ih =>
    intro a b h
    have hb2 : Nat.div2 b < 2 ^ n := by
      rw [Nat.div2_val, Nat.div_lt_iff_lt_mul (by norm_num)]
      calc b < 2 ^ (n + 1) := h
        _ = 2 ^ n * 2 := by ring
    have hs : a <<< (n + 1) = Nat.bit false (a <<< n) := by
      simp [Nat.bit, Nat.shiftLeft_eq, Nat.pow_succ]
      ring
    have hbdec : b = Nat.bit (Nat.bodd b) (Nat.div2 b) := (Nat.bit_decomp b).symm
    rw [hs]
    conv_lhs => rw [hbdec]
    rw [Nat.lor_bit]
    rw [ih a (Nat.div2 b) hb2]
    simp only [Bool.false_or, Nat.bit_val]
    have hmod : (Nat.bodd b).toNat = b % 2 := (Nat.mod_two_of_bodd b).symm
    rw [Nat.div2_val, hmod, Nat.pow_succ]
    have := Nat.mod_add_div b 2
    ring_nf
    omega

/-- For 8-bit channels the packed RGB565 word is the weighted sum of the
truncated channels. -/
theorem rgb565_eq_sum (r g b : Nat) (hr : r ≤ 255) (hg : g ≤ 255)
    (hb : b ≤ 255) : rgb565 r g b = 2048 * (r / 8) + 32 * (g / 4) + b / 8 := by
  have hr3 : r >>> 3 = r / 8 := by
    rw [Nat.shiftRight_eq_div_pow]
  have hg2 : g >>> 2 = g / 4 := by
    rw [Nat.shiftRight_eq_div_pow]
  have hb3 : b >>> 3 = b / 8 := by
    rw [Nat.shiftRight_eq_div_pow]
  have hgb : g / 4 ≤ 63 := by omega
  have hbb : b / 8 ≤ 31 := by omega
  unfold rgb565
  rw [hr3, hg2, hb3]
  have h1 : (g / 4) <<< 5 < 2 ^ 11 := by
    rw [Nat.shiftLeft_eq]
    norm_num
    omega
  rw [shiftLeft_lor_eq_add 11 (r / 8) ((g / 4) <<< 5) h1]
  have h2 : r / 8 * 2 ^ 11 + (g / 4) <<< 5 = (r / 8 * 64 + g / 4) <<< 5 := by
    rw [Nat.shiftLeft_eq, Nat.shiftLeft_eq]
    ring
  rw [h2]
  rw [shiftLeft_lor_eq_add 5 (r / 8 * 64 + g / 4) (b / 8) (by norm_num; omega)]
  ring

/-- C4: for every RGB triple with each channel in 0–255, the pixel
packer computes exactly `((R>>3)<<11) | ((G>>2)<<5) | (B>>3)` — equal to
the weighted sum of the truncated channels, insensitive to the low three
(resp. two) bits of each channel — and in particular `(255,255,255)`
packs to `0xFFFF`, `(0,0,0)` to `0x0000`, `(248,0,0)` to `0xF800`, and
`(7,3,3)` to `0x0000`. -/
theorem pixelPacker_rgb565_correct :
    (∀ r g b, r ≤ 255 → g ≤ 255 → b ≤ 255 →
      rgb565 r g b = (((r >>> 3) <<< 11) ||| ((g >>> 2) <<< 5)) ||| (b >>> 3) ∧
      rgb565 r g b = 2048 * (r / 8) + 32 * (g / 4) + b / 8 ∧
      rgb565 r g b = rgb565 (r / 8 * 8) (g / 4 * 4) (b / 8 * 8)) ∧
    rgb565 255 255 255 = 0xFFFF ∧ rgb565 0 0 0 = 0x0000 ∧
    rgb565 248 0 0 = 0xF800 ∧ rgb565 7 3 3 = 0x0000 := by
  refine ⟨fun r g b hr hg hb => ⟨rfl, rgb565_eq_sum r g b hr hg hb, ?_⟩,
    by decide, by decide, by decide, by decide⟩
  rw [rgb565_eq_sum r g b hr hg hb,
    rgb565_eq_sum (r / 8 * 8) (g / 4 * 4) (b / 8 * 8) (by omega) (by omega)
      (by omega)]
  omega

/-- Witness for C4 at the concrete channel triple (100, 200, 50). -/
theorem pixelPacker_rgb565_correct_witness :
    (100 ≤ 255 ∧ 200 ≤ 255 ∧ 50 ≤ 255) ∧
    (rgb565 100 200 50 =
        (((100 >>> 3) <<< 11) ||| ((200 >>> 2) <<< 5)) ||| (50 >>> 3) ∧
      rgb565 100 200 50 = 2048 * (100 / 8) + 32 * (200 / 4) + 50 / 8 ∧
      rgb565 100 200 50 = rgb565 (100 / 8 * 8) (200 / 4 * 4) (50 / 8 * 8)) :=
  ⟨by decide,
    pixelPacker_rgb565_correct.1 100 200 50 (by decide) (by decide) (by decide)⟩

/-! ### C3: dimension normalizer -/

/-- C3: for positive input dimensions and a positive power-of-two
ceiling `2^k`, `nearest_power_of_2` computes per axis, independently,
`min (2 ^ ⌈log2 dim⌉) (2^k)`; a dimension of 1 yields 1; whenever the
dimension is at most the ceiling the result is the smallest power of two
at least the dimension; and the result never exceeds the ceiling and is
always itself a power of two. -/
theorem nearest_power_of_2_correct (k w h : Nat) (hw : 0 < w) (hh : 0 < h) :
    (nearest_power_of_2 (2 ^ k) (w, h)).1 = min (2 ^ Nat.clog 2 w) (2 ^ k) ∧
    (nearest_power_of_2 (2 ^ k) (w, h)).2 = min (2 ^ Nat.clog 2 h) (2 ^ k) ∧
    (∀ h2, (nearest_power_of_2 (2 ^ k) (w, h)).1 =
      (nearest_power_of_2 (2 ^ k) (w, h2)).1) ∧
    (w = 1 → (nearest_power_of_2 (2 ^ k) (w, h)).1 = 1) ∧
    (w ≤ 2 ^ k →
      (nearest_power_of_2 (2 ^ k) (w, h)).1 = 2 ^ Nat.clog 2 w ∧
      w ≤ (nearest_power_of_2 (2 ^ k) (w, h)).1 ∧
      (∀ m, w ≤ 2 ^ m → (nearest_power_of_2 (2 ^ k) (w, h)).1 ≤ 2 ^ m)) ∧
    (nearest_power_of_2 (2 ^ k) (w, h)).1 ≤ 2 ^ k ∧
    (∃ j, (nearest_power_of_2 (2 ^ k) (w, h)).1 = 2 ^ j) := by
  refine ⟨rfl, rfl, fun h2 => rfl, ?_, ?_, ?_, ?_⟩
  · intro hw1
    subst hw1
    simp [nearest_power_of_2, Nat.clog_one_right, Nat.one_le_two_pow]
  · intro hwk
    have hc : Nat.clog 2 w ≤ k := (Nat.le_pow_iff_clog_le (by norm_num)).mp hwk
    have hle : 2 ^ Nat.clog 2 w ≤ 2 ^ k := Nat.pow_le_pow_right (by norm_num) hc
    refine ⟨?_, ?_, ?_⟩
    · simp [nearest_power_of_2, min_eq_left hle]
    · simp only [nearest_power_of_2, min_eq_left hle]
      exact Nat.le_pow_clog (by norm_num) w
    · intro m hm
      have : Nat.clog 2 w ≤ m := (Nat.le_pow_iff_clog_le (by norm_num)).mp hm
      simp only [nearest_power_of_2, min_eq_left hle]
      exact Nat.pow_le_pow_right (by norm_num) this
  · exact min_le_right _ _
  · rcases le_total (Nat.clog 2 w) k with hle | hle
    · exact ⟨Nat.clog 2 w,
        min_eq_left (Nat.pow_le_pow_right (by norm_num) hle)⟩
    · exact ⟨k, min_eq_right (Nat.pow_le_pow_right (by norm_num) hle)⟩

/-- Witness for C3 at width 100, height 1, ceiling 512. -/
theorem nearest_power_of_2_correct_witness :
    (0 < 100 ∧ 0 < 1) ∧
    ((nearest_power_of_2 (2 ^ 9) (100, 1)).1 =
        min (2 ^ Nat.clog 2 100) (2 ^ 9) ∧
      (nearest_power_of_2 (2 ^ 9) (100, 1)).2 =
        min (2 ^ Nat.clog 2 1) (2 ^ 9) ∧
      (∀ h2, (nearest_power_of_2 (2 ^ 9) (100, 1)).1 =
        (nearest_power_of_2 (2 ^ 9) (100, h2)).1) ∧
      (100 = 1 → (nearest_power_of_2 (2 ^ 9) (100, 1)).1 = 1) ∧
      (100 ≤ 2 ^ 9 →
        (nearest_power_of_2 (2 ^ 9) (100, 1)).1 = 2 ^ Nat.clog 2 100 ∧
        100 ≤ (nearest_power_of_2 (2 ^ 9) (100, 1)).1 ∧
        (∀ m, 100 ≤ 2 ^ m →
          (nearest_power_of_2 (2 ^ 9) (100, 1)).1 ≤ 2 ^ m)) ∧
      (nearest_power_of_2 (2 ^ 9) (100, 1)).1 ≤ 2 ^ 9 ∧
      (∃ j, (nearest_power_of_2 (2 ^ 9) (100, 1)).1 = 2 ^ j)) :=
  ⟨by decide, nearest_power_of_2_correct 9 100 1 (by decide) (by decide)⟩

/-! ### C8: filename sanitization -/

/-- The nine successive `replace` passes of `sanitize_filename` act like
one simultaneous replacement of every invalid character. -/
theorem sanitizeCore (l : List Char) :
    invalidChars.foldl (fun acc c => replaceChar c acc) l =
      l.map (fun c => if c ∈ invalidChars then '_' else c) := by
  simp only [invalidChars, List.foldl_cons, List.foldl_nil, replaceChar,
    List.map_map]
  apply List.map_congr_left
  intro c _
  by_cases h : c ∈ invalidChars
  · fin_cases h <;> rfl
  · simp only [invalidChars, List.mem_cons, List.not_mem_nil, or_false] at h
    push_neg at h
    obtain ⟨h1, h2, h3, h4, h5, h6, h7, h8, h9⟩ := h
    simp [Function.comp, h1, h2, h3, h4, h5, h6, h7, h8, h9, invalidChars]

/-- C8: the output filename stem replaces each occurrence of the
characters `< > : " / \ | ? *` with an underscore and then trims leading
and trailing whitespace; `a/b:c` maps to `a_b_c`; two distinct source
names can reduce to the same sanitized stem, and a second write to the
same path overwrites the first (last write wins). -/
theorem sanitize_filename_correct :
    sanitize_filename "a/b:c" = "a_b_c" ∧
    (∀ name : String, sanitize_filename name =
      ⟨pyStrip (name.data.map (fun c => if c ∈ invalidChars then '_' else c))⟩) ∧
    sanitize_filename "a/b" = sanitize_filename "a:b" ∧
    ("a/b" : String) ≠ "a:b" ∧
    (∀ (s : Store) (p : Path) (v1 v2 : List Nat),
      applyOps [FsOp.fwrite p v1, FsOp.fwrite p v2] s p = some v2) := by
  refine ⟨by decide, ?_, by decide, by decide, ?_⟩
  · intro name
    unfold sanitize_filename
    rw [sanitizeCore]
  · intro s p v1 v2
    simp [applyOps, applyOp]

/-! ### Mesh encoder lemmas -/

theorem wseq_none_iff (x y : WriteResult) :
    (wseq x y).2 = none ↔ x.2 = none ∧ y.2 = none := by
  cases hx : x.2 <;> simp [wseq, hx]

theorem wseq_fst_of_none (x y : WriteResult) (hx : x.2 = none) :
    (wseq x y).1 = x.1 ++ y.1 := by
  simp [wseq, hx]

theorem flatMap_le32_length (l : List Nat) :
    (l.flatMap le32).length = 4 * l.length := by
  induction l with
  | nil => simp
  | cons x t ih => simp [le32, ih]; omega

theorem flatMap_le16_length (l : List Nat) :
    (l.flatMap le16).length = 2 * l.length := by
  induction l with
  | nil => simp
  | cons x t ih => simp [le16, ih]; omega

theorem packTriplesF32_eq : ∀ l : List Nat, l.length % 3 = 0 →
    packTriplesF32 l = (l.flatMap le32, none) := by
  intro l h
  induction l using packTriplesF32.induct with
  | case1 => simp [packTriplesF32]
  | case2 x => simp at h
  | case3 x y => simp at h
  | case4 x y z rest ih =>
    have hr : rest.length % 3 = 0 := by simp at h; omega
    simp [packTriplesF32, ih hr, List.flatMap]

theorem packTriplesF32_none_iff : ∀ l : List Nat,
    (packTriplesF32 l).2 = none ↔ l.length % 3 = 0 := by
  intro l
  induction l using packTriplesF32.induct with
  | case1 => simp [packTriplesF32]
  | case2 x => simp [packTriplesF32]
  | case3 x y => simp [packTriplesF32]
  | case4 x y z rest ih =>
    simp only [packTriplesF32, List.length_cons]
    rw [ih]
    omega

theorem packTriples16_eq : ∀ l : List Nat,
    l.length % 3 = 0 → (∀ x ∈ l, x < 65536) →
    packTriples16 l = (l.flatMap le16, none) := by
  intro l h hb
  induction l using packTriples16.induct with
  | case1 => simp [packTriples16]
  | case2 x => simp at h
  | case3 x y => simp at h
  | case4 a b c rest hcond ih =>
    have hr : rest.length % 3 = 0 := by simp at h; omega
    have hrb : ∀ x ∈ rest, x < 65536 := fun x hx => hb x (by simp [hx])
    simp [packTriples16, hcond, ih hr hrb, List.flatMap]
  | case5 a b c rest hcond =>
    exact absurd ⟨hb a (by simp), hb b (by simp), hb c (by simp)⟩ hcond

theorem packTriples16_none_iff : ∀ l : List Nat,
    (packTriples16 l).2 = none ↔
      (l.length % 3 = 0 ∧ ∀ x ∈ l, x < 65536) := by
  intro l
  induction l using packTriples16.induct with
  | case1 => simp [packTriples16]
  | case2 x => simp [packTriples16]
  | case3 x y => simp [packTriples16]
  | case4 a b c rest hab ih =>
    simp only [packTriples16, if_pos hab, List.length_cons]
    rw [ih]
    obtain ⟨ha1, hb1, hc1⟩ := hab
    constructor
    · rintro ⟨hlen, hall⟩
      refine ⟨by omega, ?_⟩
      intro x hx
      simp only [List.mem_cons] at hx
      rcases hx with rfl | rfl | rfl | hx
      · exact ha1
      · exact hb1
      · exact hc1
      · exact hall x hx
    · rintro ⟨hlen, hall⟩
      exact ⟨by omega, fun x hx => hall x (by simp [hx])⟩
  | case5 a b c rest hab =>
    simp only [packTriples16, if_neg hab]
    constructor
    · intro hcon
      simp at hcon
    · rintro ⟨hlen, hall⟩
      exact absurd ⟨hall a (by simp), hall b (by simp), hall c (by simp)⟩ hab

theorem packPairsF32_eq : ∀ l : List Nat, l.length % 2 = 0 →
    packPairsF32 l = (l.flatMap le32, none) := by
  intro l h
  induction l using packPairsF32.induct with
  | case1 => simp [packPairsF32]
  | case2 u => simp at h
  | case3 u v rest ih =>
    have hr : rest.length % 2 = 0 := by simp at h; omega
    simp [packPairsF32, ih hr, List.flatMap]

/-- The full successful encode of a well-formed mesh, byte for byte. -/
theorem export_dreamcast_mesh_eq (m : DecodedMesh) (h : meshOk m) :
    export_dreamcast_mesh m = (meshSpecBytes m, none) := by
  obtain ⟨hv3, hvc, hi3, hic, hib, huv⟩ := h
  have hvp : pack32 (m.vertices.length / 3) = (le32 (m.vertices.length / 3), none) := by
    simp [pack32, hvc]
  have hip : pack32 (m.indices.length / 3) = (le32 (m.indices.length / 3), none) := by
    simp [pack32, hic]
  have huvs : uvSection m.uv =
      ((match m.uv with
        | some (u :: us) => le32 ((u :: us).length / 2) ++ (u :: us).flatMap le32
        | _ => le32 0), none) := by
    match hu : m.uv with
    | none => simp [uvSection]
    | some [] => simp [uvSection]
    | some (u :: us) =>
      rw [hu] at huv
      have huv2 : (u :: us).length % 2 = 0 ∧
          (u :: us).length / 2 < 4294967296 := huv
      have hlen : (us.length + 1) / 2 < 4294967296 := by
        simpa using huv2.2
      simp only [uvSection]
      rw [packPairsF32_eq (u :: us) huv2.1]
      simp [pack32, hlen, wseq]
  unfold export_dreamcast_mesh
  rw [packTriplesF32_eq m.vertices hv3, packTriples16_eq m.indices hi3 hib,
    hvp, hip, huvs]
  simp only [wseq, meshSpecBytes]
  cases m.uv <;> simp

/-- C5: for every well-formed `DecodedMesh` the binary encoder emits
exactly the claimed little-endian layout — magic+version, 32-bit vertex
count `len/3`, the vertices in source order, 32-bit triangle count
`len/3`, the 16-bit index triples in source order, then a 32-bit UV-pair
count (zero when no UV data) followed by the UV pairs — with no error;
the total byte length is `16 + 4·|vertices| + 2·|indices| + 4·|uv|`. -/
theorem export_dreamcast_mesh_layout (m : DecodedMesh) (h : meshOk m) :
    export_dreamcast_mesh m =
      (dcmMagic ++ le32 (m.vertices.length / 3) ++ m.vertices.flatMap le32 ++
        le32 (m.indices.length / 3) ++ m.indices.flatMap le16 ++
        (match m.uv with
         | some (u :: us) => le32 ((u :: us).length / 2) ++ (u :: us).flatMap le32
         | _ => le32 0), none) ∧
    (export_dreamcast_mesh m).1.length =
      16 + 4 * m.vertices.length + 2 * m.indices.length +
        4 * (match m.uv with | some (u :: us) => (u :: us).length | _ => 0) := by
  have he := export_dreamcast_mesh_eq m h
  rw [he]
  refine ⟨by rw [meshSpecBytes], ?_⟩
  match hu : m.uv with
  | none =>
    simp only [meshSpecBytes, hu, List.length_append, flatMap_le32_length,
      flatMap_le16_length, dcmMagic, le32, List.length_cons, List.length_nil]
    omega
  | some [] =>
    simp only [meshSpecBytes, hu, List.length_append, flatMap_le32_length,
      flatMap_le16_length, dcmMagic, le32, List.length_cons, List.length_nil]
    omega
  | some (u :: us) =>
    simp only [meshSpecBytes, hu, List.length_append, flatMap_le32_length,
      flatMap_le16_length, dcmMagic, le32, List.length_cons, List.length_nil]
    omega

/-- Witness for C5: the mesh with one vertex `(1.0, 2.0, 3.0)` (float
bit patterns), one triangle `(0,0,0)` and no UVs encodes without error
into exactly 34 bytes whose vertex-count field is 1, triangle-count
field is 1 and UV-count field is 0. -/
theorem export_dreamcast_mesh_layout_witness :
    meshOk ⟨"tri", [0x3F800000, 0x40000000, 0x40400000], [0, 0, 0], none⟩ ∧
    (export_dreamcast_mesh
        ⟨"tri", [0x3F800000, 0x40000000, 0x40400000], [0, 0, 0], none⟩).1.length = 34 ∧
    (export_dreamcast_mesh
        ⟨"tri", [0x3F800000, 0x40000000, 0x40400000], [0, 0, 0], none⟩).2 = none ∧
    readLE32 (export_dreamcast_mesh
        ⟨"tri", [0x3F800000, 0x40000000, 0x40400000], [0, 0, 0], none⟩).1 4 = 1 ∧
    readLE32 (export_dreamcast_mesh
        ⟨"tri", [0x3F800000, 0x40000000, 0x40400000], [0, 0, 0], none⟩).1 20 = 1 ∧
    readLE32 (export_dreamcast_mesh
        ⟨"tri", [0x3F800000, 0x40000000, 0x40400000], [0, 0, 0], none⟩).1 30 = 0 := by
  have h := export_dreamcast_mesh_layout
    ⟨"tri", [0x3F800000, 0x40000000, 0x40400000], [0, 0, 0], none⟩ (by decide)
  exact ⟨by decide, by rw [h.2]; decide, by rw [h.1], by decide, by decide,
    by decide⟩

theorem pack32_none_iff (n : Nat) : (pack32 n).2 = none ↔ n < 4294967296 := by
  by_cases h : n < 4294967296 <;> simp [pack32, h]

/-- The binary mesh encode completes without exception exactly when the
counts fit 32 bits, the buffers group evenly and every index fits 16
bits. -/
theorem export_dreamcast_mesh_none_iff (m : DecodedMesh) :
    (export_dreamcast_mesh m).2 = none ↔
      (m.vertices.length / 3 < 4294967296 ∧ m.vertices.length % 3 = 0 ∧
       m.indices.length / 3 < 4294967296 ∧ m.indices.length % 3 = 0 ∧
       (∀ x ∈ m.indices, x < 65536) ∧ (uvSection m.uv).2 = none) := by
  unfold export_dreamcast_mesh
  rw [wseq_none_iff, wseq_none_iff, wseq_none_iff, wseq_none_iff,
    wseq_none_iff, pack32_none_iff, pack32_none_iff,
    packTriplesF32_none_iff, packTriples16_none_iff]
  simp only [true_and]
  tauto

/-- C6: a mesh whose index buffer holds a value that does not fit in 16
bits is never silently truncated: the binary encode of that asset raises
instead of writing the value reduced mod 2^16. -/
theorem export_dreamcast_mesh_rejects_large_index (m : DecodedMesh)
    (h : ∃ i ∈ m.indices, 65536 ≤ i) :
    (export_dreamcast_mesh m).2 ≠ none := by
  intro hc
  rw [export_dreamcast_mesh_none_iff] at hc
  obtain ⟨i, hi, hge⟩ := h
  exact absurd (hc.2.2.2.2.1 i hi) (by omega)

/-- Witness for C6 at a concrete mesh with the out-of-range index 70000. -/
theorem export_dreamcast_mesh_rejects_large_index_witness :
    (∃ i ∈ ([0, 1, 70000] : List Nat), 65536 ≤ i) ∧
    (export_dreamcast_mesh ⟨"bad", [0, 0, 0], [0, 1, 70000], none⟩).2 ≠ none :=
  ⟨⟨70000, by decide, by decide⟩,
    export_dreamcast_mesh_rejects_large_index
      ⟨"bad", [0, 0, 0], [0, 1, 70000], none⟩ ⟨70000, by decide, by decide⟩⟩

/-! ### C10: partial mesh writes -/

/-- A concrete environment for witnesses: no external executables
available, default 512 texture ceiling, trivial opaque collaborators. -/
def env0 : Env where
  available := []
  maxSize := 512
  resample := fun i _ _ => i
  pngEncode := fun _ => []
  pvrTool := fun _ => []
  adxEncode := fun _ => []
  soxEncode := fun _ => []
  jsonRender := fun _ _ _ => []
  floatRepr := fun _ => ""

/-- The empty output tree. -/
def emptyStore : Store := fun _ => none

/-- C10: when a mesh violates its contract mid-encode (a buffer length
not a multiple of 3, or an index ≥ 65536) the encode raises, but the
`.dcm` file has already been opened and a prefix written — it starts
with the magic and version, and (whenever the vertex-count field itself
packs) is at least 8 bytes long — and after `extract_mesh` catches and
logs the per-asset error, the partial `.dcm` file remains in the output
tree with exactly those bytes, neither completed (no `.obj` companion is
written) nor removed. -/
theorem export_dreamcast_mesh_incomplete_write (env : Env) (m : DecodedMesh)
    (s : Store) (log : List LogEntry)
    (hbad : m.vertices.length % 3 ≠ 0 ∨ m.indices.length % 3 ≠ 0 ∨
      ∃ i ∈ m.indices, 65536 ≤ i) :
    (export_dreamcast_mesh m).2 ≠ none ∧
    (export_dreamcast_mesh m).1.take 4 = dcmMagic ∧
    (m.vertices.length / 3 < 4294967296 →
      8 ≤ (export_dreamcast_mesh m).1.length) ∧
    (processObj env (s, log) (.mesh m)).1
        ⟨"models", sanitize_filename m.name, "dcm"⟩ =
      some (export_dreamcast_mesh m).1 ∧
    (processObj env (s, log) (.mesh m)).1
        ⟨"models", sanitize_filename m.name, "obj"⟩ =
      s ⟨"models", sanitize_filename m.name, "obj"⟩ ∧
    (∃ e, (processObj env (s, log) (.mesh m)).2 =
      log ++ [LogEntry.error ("Failed to extract mesh: " ++ e)]) := by
  have herr : (export_dreamcast_mesh m).2 ≠ none := by
    intro hc
    rw [export_dreamcast_mesh_none_iff] at hc
    rcases hbad with hb | hb | ⟨i, hi, hge⟩
    · exact hb hc.2.1
    · exact hb hc.2.2.2.1
    · exact absurd (hc.2.2.2.2.1 i hi) (by omega)
  obtain ⟨e, he⟩ : ∃ e, (export_dreamcast_mesh m).2 = some e := by
    cases h2 : (export_dreamcast_mesh m).2 with
    | none => exact absurd h2 herr
    | some e => exact ⟨e, rfl⟩
  have hne : (⟨"models", sanitize_filename m.name, "obj"⟩ : Path) ≠
      ⟨"models", sanitize_filename m.name, "dcm"⟩ := by
    intro hq
    rw [Path.mk.injEq] at hq
    exact absurd hq.2.2 (by decide)
  refine ⟨herr, ?_, ?_, ?_, ?_, ?_⟩
  · unfold export_dreamcast_mesh
    rw [wseq_fst_of_none _ _ rfl]
    have h4 : dcmMagic.length = 4 := rfl
    rw [← h4, List.take_left]
  · intro hvc
    unfold export_dreamcast_mesh
    rw [wseq_fst_of_none _ _ rfl]
    have hp : pack32 (m.vertices.length / 3) =
        (le32 (m.vertices.length / 3), none) := by
      simp [pack32, hvc]
    rw [hp, wseq_fst_of_none _ _ rfl]
    simp [dcmMagic, le32]
  · simp only [processObj, meshOps, he, applyOps, applyOp, List.foldl_cons,
      List.foldl_nil]
    simp
  · simp only [processObj, meshOps, he, applyOps, applyOp, List.foldl_cons,
      List.foldl_nil]
    simp [hne]
  · exact ⟨e, by simp only [processObj, meshOps, he]⟩

/-- Witness for C10: a mesh with a four-float vertex buffer leaves a
partial 8-byte `.dcm` file (magic, version and vertex-count field) in
the tree and no `.obj`. -/
theorem export_dreamcast_mesh_incomplete_write_witness :
    (((4 : Nat) % 3 ≠ 0 ∨ (0 : Nat) % 3 ≠ 0 ∨
        ∃ i ∈ ([] : List Nat), 65536 ≤ i) ∧
      (export_dreamcast_mesh ⟨"bad", [1, 2, 3, 4], [], none⟩).2 ≠ none ∧
      (export_dreamcast_mesh ⟨"bad", [1, 2, 3, 4], [], none⟩).1.take 4 =
        dcmMagic ∧
      ((4 : Nat) / 3 < 4294967296 →
        8 ≤ (export_dreamcast_mesh ⟨"bad", [1, 2, 3, 4], [], none⟩).1.length) ∧
      (processObj env0 (emptyStore, []) (.mesh ⟨"bad", [1, 2, 3, 4], [], none⟩)).1
          ⟨"models", sanitize_filename "bad", "dcm"⟩ =
        some (export_dreamcast_mesh ⟨"bad", [1, 2, 3, 4], [], none⟩).1 ∧
      (processObj env0 (emptyStore, []) (.mesh ⟨"bad", [1, 2, 3, 4], [], none⟩)).1
          ⟨"models", sanitize_filename "bad", "obj"⟩ =
        emptyStore ⟨"models", sanitize_filename "bad", "obj"⟩ ∧
      (∃ e, (processObj env0 (emptyStore, [])
          (.mesh ⟨"bad", [1, 2, 3, 4], [], none⟩)).2 =
        [] ++ [LogEntry.error ("Failed to extract mesh: " ++ e)])) := by
  have h := export_dreamcast_mesh_incomplete_write env0
    ⟨"bad", [1, 2, 3, 4], [], none⟩ emptyStore [] (by left; decide)
  exact ⟨by left; decide, h⟩

/-! ### Audio: C2 and C7 -/

/-- With a positive channel count and rate whose derived header fields
fit their `struct` formats, `raw_to_wav` succeeds — regardless of the
payload: no emptiness or channel-alignment validation exists. -/
theorem raw_to_wav_ok (ch rate : Nat) (data : List Nat) (hch : 0 < ch)
    (hch2 : ch * 2 < 65536) (hr : 0 < rate) (hr2 : rate < 4294967296)
    (hbr : ch * 2 * rate < 4294967296)
    (hdl : 36 + data.length < 4294967296) :
    raw_to_wav ch rate data = (wavBytes ch rate data, none) := by
  have h1 : ¬ch = 0 := by omega
  have h2 : ¬rate = 0 := by omega
  have h3 : ¬(ch ≥ 65536 ∨ ch * 2 ≥ 65536 ∨ rate ≥ 4294967296 ∨
      ch * 2 * rate ≥ 4294967296 ∨ 36 + data.length ≥ 4294967296) := by
    push_neg
    omega
  simp [raw_to_wav, h1, h2, h3]

theorem wavBytes_channels (ch rate : Nat) (data : List Nat)
    (h : ch < 65536) : readLE16 (wavBytes ch rate data) 22 = ch := by
  simp [wavBytes, le16, le32, readLE16]
  omega

theorem wavBytes_rate (ch rate : Nat) (data : List Nat)
    (h : rate < 4294967296) : readLE32 (wavBytes ch rate data) 24 = rate := by
  simp [wavBytes, le16, le32, readLE32]
  omega

/-- C2 (amended): the audio encoder performs no validation of the PCM
sample buffer before encoding — for every payload, empty or not a
multiple of the channel count or not, `raw_to_wav` succeeds and writes
the complete 44-byte header plus every payload byte, with the data-size
field equal to the raw byte count. -/
theorem raw_to_wav_no_validation (ch rate : Nat) (data : List Nat)
    (hch : 0 < ch) (hch2 : ch * 2 < 65536) (hr : 0 < rate)
    (hr2 : rate < 4294967296) (hbr : ch * 2 * rate < 4294967296)
    (hdl : 36 + data.length < 4294967296) :
    raw_to_wav ch rate data = (wavBytes ch rate data, none) ∧
    (wavBytes ch rate data).length = 44 + data.length ∧
    (wavBytes ch rate data).drop 44 = data ∧
    readLE32 (wavBytes ch rate data) 40 = data.length := by
  refine ⟨raw_to_wav_ok ch rate data hch hch2 hr hr2 hbr hdl, ?_, ?_, ?_⟩
  · simp [wavBytes, le16, le32]
    omega
  · simp [wavBytes, le16, le32]
  · simp [wavBytes, le16, le32, readLE32]
    omega

/-- Witness for C2 (amended) at the empty sample buffer, one channel,
rate 22050: the encode still succeeds and writes a 44-byte container. -/
theorem raw_to_wav_no_validation_witness :
    ((0 : Nat) < 1 ∧ (1 : Nat) * 2 < 65536 ∧ (0 : Nat) < 22050 ∧
      (22050 : Nat) < 4294967296 ∧ (1 : Nat) * 2 * 22050 < 4294967296 ∧
      36 + ([] : List Nat).length < 4294967296) ∧
    (raw_to_wav 1 22050 [] = (wavBytes 1 22050 [], none) ∧
      (wavBytes 1 22050 []).length = 44 + ([] : List Nat).length ∧
      (wavBytes 1 22050 []).drop 44 = ([] : List Nat) ∧
      readLE32 (wavBytes 1 22050 []) 40 = ([] : List Nat).length) :=
  ⟨by decide, raw_to_wav_no_validation 1 22050 [] (by decide) (by decide)
    (by decide) (by decide) (by decide) (by decide)⟩

/-- Counterexample to C2 as stated: for the empty sample buffer (which
the claim says must fail with a format-mismatch error producing no audio
output), the pipeline writes the `.wav` output file and logs only the
degraded-compression warning and the success message — no error. -/
theorem extract_audio_empty_buffer_counterexample :
    (processObj env0 (emptyStore, [])
        (.audioClip ⟨"s", 22050, 1, []⟩)).1 ⟨"audio", "s", "wav"⟩ =
      some (wavBytes 1 22050 []) ∧
    (processObj env0 (emptyStore, [])
        (.audioClip ⟨"s", 22050, 1, []⟩)).2 =
      [LogEntry.warning "No ADPCM converter available, keeping WAV format",
       LogEntry.info "Extracted audio: s"] := by
  decide

/-- C7: when neither `adxtool` nor `sox` is available, the audio
extractor still emits the uncompressed WAV container, whose header
carries the source channel count (16-bit field at offset 22) and sample
rate (32-bit field at offset 24) unchanged; no `.adx` output appears,
the raw intermediate is cleaned up, and the event is reported as a
logged warning followed by the normal success message — not a per-asset
failure. -/
theorem audio_degraded_passthrough (env : Env) (a : DecodedAudio)
    (s : Store) (log : List LogEntry)
    (hadx : "adxtool" ∉ env.available) (hsox : "sox" ∉ env.available)
    (hch : 0 < a.channels) (hch2 : a.channels * 2 < 65536)
    (hr : 0 < a.frequency) (hr2 : a.frequency < 4294967296)
    (hbr : a.channels * 2 * a.frequency < 4294967296)
    (hdl : 36 + a.samples.length < 4294967296)
    (hstale : s ⟨"audio", sanitize_filename a.name, "adx"⟩ = none) :
    (processObj env (s, log) (.audioClip a)).1
        ⟨"audio", sanitize_filename a.name, "wav"⟩ =
      some (wavBytes a.channels a.frequency a.samples) ∧
    readLE16 (wavBytes a.channels a.frequency a.samples) 22 = a.channels ∧
    readLE32 (wavBytes a.channels a.frequency a.samples) 24 = a.frequency ∧
    (processObj env (s, log) (.audioClip a)).1
        ⟨"audio", sanitize_filename a.name, "raw"⟩ = none ∧
    (processObj env (s, log) (.audioClip a)).1
        ⟨"audio", sanitize_filename a.name, "adx"⟩ = none ∧
    (processObj env (s, log) (.audioClip a)).2 =
      log ++ [LogEntry.warning "No ADPCM converter available, keeping WAV format",
        LogEntry.info ("Extracted audio: " ++ sanitize_filename a.name)] := by
  have hw := raw_to_wav_ok a.channels a.frequency a.samples hch hch2 hr hr2
    hbr hdl
  have hnotsome : ¬("adxtool" ∈ env.available ∨ "sox" ∈ env.available ∨
      (s ⟨"audio", sanitize_filename a.name, "adx"⟩).isSome = true) := by
    rw [hstale]
    simp [hadx, hsox]
  refine ⟨?_, wavBytes_channels _ _ _ (by omega),
    wavBytes_rate _ _ _ hr2, ?_, ?_, ?_⟩
  · simp only [processObj, audioOps, hw, applyOps, applyOp, List.foldl_cons,
      List.foldl_nil, if_neg hadx, if_neg hsox, if_neg hnotsome,
      List.append_nil, List.nil_append]
    simp [applyOp, Path.mk.injEq]
  · simp only [processObj, audioOps, hw, applyOps, applyOp, List.foldl_cons,
      List.foldl_nil, if_neg hadx, if_neg hsox, if_neg hnotsome,
      List.append_nil, List.nil_append]
    simp [applyOp, Path.mk.injEq]
  · simp only [processObj, audioOps, hw, applyOps, applyOp, List.foldl_cons,
      List.foldl_nil, if_neg hadx, if_neg hsox, if_neg hnotsome,
      List.append_nil, List.nil_append]
    simp [applyOp, Path.mk.injEq, hstale]
  · simp only [processObj, audioOps, hw, if_neg hadx, if_neg hsox]
    simp

/-- Witness for C7 at a concrete two-byte mono clip under `env0`. -/
theorem audio_degraded_passthrough_witness :
    ("adxtool" ∉ env0.available ∧ "sox" ∉ env0.available ∧
      emptyStore ⟨"audio", sanitize_filename "clip", "adx"⟩ = none) ∧
    ((processObj env0 (emptyStore, []) (.audioClip ⟨"clip", 22050, 1, [7, 9]⟩)).1
        ⟨"audio", sanitize_filename "clip", "wav"⟩ =
      some (wavBytes 1 22050 [7, 9]) ∧
    readLE16 (wavBytes 1 22050 [7, 9]) 22 = 1 ∧
    readLE32 (wavBytes 1 22050 [7, 9]) 24 = 22050 ∧
    (processObj env0 (emptyStore, []) (.audioClip ⟨"clip", 22050, 1, [7, 9]⟩)).1
        ⟨"audio", sanitize_filename "clip", "raw"⟩ = none ∧
    (processObj env0 (emptyStore, []) (.audioClip ⟨"clip", 22050, 1, [7, 9]⟩)).1
        ⟨"audio", sanitize_filename "clip", "adx"⟩ = none ∧
    (processObj env0 (emptyStore, []) (.audioClip ⟨"clip", 22050, 1, [7, 9]⟩)).2 =
      [] ++ [LogEntry.warning "No ADPCM converter available, keeping WAV format",
        LogEntry.info ("Extracted audio: " ++ sanitize_filename "clip")]) :=
  ⟨⟨by decide, by decide, by decide⟩,
    audio_degraded_passthrough env0 ⟨"clip", 22050, 1, [7, 9]⟩ emptyStore []
      (by decide) (by decide) (by decide) (by decide) (by decide) (by decide)
      (by decide) (by decide) (by decide)⟩

/-! ### Store lemmas -/

/-- The value left at `q` by the last effect of `ops` touching `q`
(`some r`), or `none` when no effect touches `q`. -/
def lastWrite : List FsOp → Path → Option (Option (List Nat))
  | [], _ => none
  | op :: t, q =>
    match lastWrite t q with
    | some r => some r
    | none =>
      if op.path = q then
        some (match op with | .fwrite _ v => some v | .fremove _ => none)
      else none

theorem applyOps_apply : ∀ (ops : List FsOp) (s : Store) (q : Path),
    applyOps ops s q = match lastWrite ops q with
      | some r => r
      | none => s q := by
  intro ops
  induction ops with
  | nil => intro s q; rfl
  | cons op t ih =>
    intro s q
    have hstep : applyOps (op :: t) s = applyOps t (applyOp s op) := rfl
    rw [hstep, ih]
    cases hl : lastWrite t q with
    | some r => simp [lastWrite, hl]
    | none =>
      simp only [lastWrite, hl]
      cases op with
      | fwrite p v =>
        by_cases hpq : p = q
        · subst hpq
          simp [applyOp, FsOp.path]
        · have hqp : ¬q = p := fun h2 => hpq h2.symm
          simp [applyOp, FsOp.path, hpq, hqp]
      | fremove p =>
        by_cases hpq : p = q
        · subst hpq
          simp [applyOp, FsOp.path]
        · have hqp : ¬q = p := fun h2 => hpq h2.symm
          simp [applyOp, FsOp.path, hpq, hqp]

/-- Replaying the same effect sequence is a no-op: the last effect per
path wins both times. -/
theorem applyOps_idem (ops : List FsOp) (s : Store) :
    applyOps ops (applyOps ops s) = applyOps ops s := by
  funext q
  rw [applyOps_apply, applyOps_apply]
  cases hl : lastWrite ops q <;> simp [hl]

theorem applyOps_untouched (ops : List FsOp) (s : Store) (q : Path)
    (h : ∀ op ∈ ops, op.path ≠ q) : applyOps ops s q = s q := by
  rw [applyOps_apply]
  have : lastWrite ops q = none := by
    induction ops with
    | nil => rfl
    | cons op t ih =>
      have hop : op.path ≠ q := h op (by simp)
      have ht : ∀ o ∈ t, FsOp.path o ≠ q := fun o ho => h o (by simp [ho])
      simp [lastWrite, ih ht, hop]
  rw [this]

/-- All paths the processing of one object can ever touch (a superset,
independent of environment and store state). -/
def objPathsSup : UnityObj → List Path
  | .texture2D t =>
    let name := sanitize_filename t.name
    [⟨"textures", name, "png"⟩, ⟨"textures", name ++ "_resized", "png"⟩,
     ⟨"textures", name, "raw"⟩, ⟨"textures", name ++ "_resized", "raw"⟩,
     ⟨"textures", name, "pvr"⟩, ⟨"textures", name ++ "_resized", "pvr"⟩,
     ⟨"textures", name, "vq.info"⟩]
  | .audioClip a =>
    let name := sanitize_filename a.name
    [⟨"audio", name, "raw"⟩, ⟨"audio", name, "wav"⟩, ⟨"audio", name, "adx"⟩]
  | .mesh m =>
    let name := sanitize_filename m.name
    [⟨"models", name, "dcm"⟩, ⟨"models", name, "obj"⟩]
  | .material m => [⟨"materials", sanitize_filename m.name, "json"⟩]
  | .other _ => []
  | .unreadable _ => []

theorem mem_ite_list {α : Type} {op : α} (c : Prop) [Decidable c]
    (l1 l2 : List α) (h : op ∈ (if c then l1 else l2)) :
    op ∈ l1 ∨ op ∈ l2 := by
  split at h
  · exact Or.inl h
  · exact Or.inr h

theorem textureOps_paths (env : Env) (t : DecodedTexture) :
    ∀ op ∈ (textureOps env t).1, op.path ∈ objPathsSup (.texture2D t) := by
  intro op hop
  cases himg : t.image with
  | none => simp [textureOps, himg] at hop
  | some img =>
    simp only [textureOps, himg] at hop
    split at hop
    · rcases List.mem_append.mp hop with h | h
      · rcases List.mem_append.mp h with h | h
        · rcases List.mem_append.mp h with h | h
          · rcases List.mem_append.mp h with h | h
            · simp only [List.mem_singleton] at h
              subst h
              simp [objPathsSup, FsOp.path]
            · rcases mem_ite_list _ _ _ h with h2 | h2
              · simp only [List.mem_singleton] at h2
                subst h2
                split <;> simp [objPathsSup, FsOp.path]
              · simp at h2
          · simp only [List.mem_cons, List.not_mem_nil, or_false] at h
            rcases h with h3 | h3 | h3 <;>
              (subst h3; split <;> simp [objPathsSup, FsOp.path])
        · rcases mem_ite_list _ _ _ h with h2 | h2
          · simp only [List.mem_singleton] at h2
            subst h2
            split <;> simp [objPathsSup, FsOp.path]
          · simp at h2
      · simp only [List.mem_singleton] at h
        subst h
        simp [objPathsSup, FsOp.path]
    · split at hop
      · rcases List.mem_append.mp hop with h | h
        · rcases List.mem_append.mp h with h | h
          · rcases List.mem_append.mp h with h | h
            · rcases List.mem_append.mp h with h | h
              · simp only [List.mem_singleton] at h
                subst h
                simp [objPathsSup, FsOp.path]
              · rcases mem_ite_list _ _ _ h with h2 | h2
                · simp only [List.mem_singleton] at h2
                  subst h2
                  split <;> simp [objPathsSup, FsOp.path]
                · simp at h2
            · simp only [List.mem_singleton] at h
              subst h
              split <;> simp [objPathsSup, FsOp.path]
          · rcases mem_ite_list _ _ _ h with h2 | h2
            · simp only [List.mem_singleton] at h2
              subst h2
              split <;> simp [objPathsSup, FsOp.path]
            · simp at h2
        · simp only [List.mem_singleton] at h
          subst h
          simp [objPathsSup, FsOp.path]
      · rcases List.mem_append.mp hop with h | h
        · rcases List.mem_append.mp h with h | h
          · simp only [List.mem_singleton] at h
            subst h
            simp [objPathsSup, FsOp.path]
          · rcases mem_ite_list _ _ _ h with h2 | h2
            · simp only [List.mem_singleton] at h2
              subst h2
              split <;> simp [objPathsSup, FsOp.path]
            · simp at h2
        · simp only [List.mem_singleton] at h
          subst h
          split <;> simp [objPathsSup, FsOp.path]

theorem audioOps_paths (env : Env) (s : Store) (a : DecodedAudio) :
    ∀ op ∈ (audioOps env s a).1, op.path ∈ objPathsSup (.audioClip a) := by
  intro op hop
  cases hw : (raw_to_wav a.channels a.frequency a.samples).2 with
  | some e =>
    simp only [audioOps, hw, List.mem_cons, List.not_mem_nil, or_false] at hop
    rcases hop with h | h <;> (subst h; simp [objPathsSup, FsOp.path])
  | none =>
    simp only [audioOps, hw] at hop
    rcases List.mem_append.mp hop with h | h
    · rcases List.mem_append.mp h with h | h
      · rcases List.mem_append.mp h with h | h
        · simp only [List.mem_cons, List.not_mem_nil, or_false] at h
          rcases h with h2 | h2 <;> (subst h2; simp [objPathsSup, FsOp.path])
        · by_cases h1 : "adxtool" ∈ env.available
          · simp only [if_pos h1, List.mem_singleton] at h
            subst h
            simp [objPathsSup, FsOp.path]
          · simp only [if_neg h1] at h
            by_cases h2 : "sox" ∈ env.available
            · simp only [if_pos h2, List.mem_singleton] at h
              subst h
              simp [objPathsSup, FsOp.path]
            · simp only [if_neg h2] at h
              simp at h
      · simp only [List.mem_singleton] at h
        subst h
        simp [objPathsSup, FsOp.path]
    · rcases mem_ite_list _ _ _ h with h2 | h2
      · simp only [List.mem_singleton] at h2
        subst h2
        simp [objPathsSup, FsOp.path]
      · simp at h2

theorem meshOps_paths (fr : Nat → String) (m : DecodedMesh) :
    ∀ op ∈ (meshOps fr m).1, op.path ∈ objPathsSup (.mesh m) := by
  intro op hop
  cases hr : (export_dreamcast_mesh m).2 with
  | some e =>
    simp only [meshOps, hr, List.mem_singleton] at hop
    subst hop
    simp [objPathsSup, FsOp.path]
  | none =>
    simp only [meshOps, hr, List.mem_cons, List.not_mem_nil, or_false] at hop
    rcases hop with h | h <;> (subst h; simp [objPathsSup, FsOp.path])

theorem materialOps_paths (env : Env) (m : DecodedMaterial) :
    ∀ op ∈ (materialOps env m).1, op.path ∈ objPathsSup (.material m) := by
  intro op hop
  simp only [materialOps, List.mem_singleton] at hop
  subst hop
  simp [objPathsSup, FsOp.path]

/-- Processing one object leaves every path outside its own output
paths untouched. -/
theorem processObj_untouched (env : Env) (st : PState) (o : UnityObj)
    (q : Path) (hq : q ∉ objPathsSup o) :
    (processObj env st o).1 q = st.1 q := by
  cases o with
  | texture2D t =>
    exact applyOps_untouched _ _ _ (fun op hop heq =>
      hq (heq ▸ textureOps_paths env t op hop))
  | audioClip a =>
    exact applyOps_untouched _ _ _ (fun op hop heq =>
      hq (heq ▸ audioOps_paths env st.1 a op hop))
  | mesh m =>
    exact applyOps_untouched _ _ _ (fun op hop heq =>
      hq (heq ▸ meshOps_paths env.floatRepr m op hop))
  | material m =>
    exact applyOps_untouched _ _ _ (fun op hop heq =>
      hq (heq ▸ materialOps_paths env m op hop))
  | other kind => rfl
  | unreadable kind => rfl

/-- Folding the driver over objects that never touch `q` preserves the
content at `q`. -/
theorem foldl_untouched (env : Env) (objs : List UnityObj) (st : PState)
    (q : Path) (h : ∀ o ∈ objs, q ∉ objPathsSup o) :
    (objs.foldl (processObj env) st).1 q = st.1 q := by
  induction objs generalizing st with
  | nil => rfl
  | cons o t ih =>
    have h1 : q ∉ objPathsSup o := h o (by simp)
    have h2 : ∀ o2 ∈ t, q ∉ objPathsSup o2 := fun o2 ho2 => h o2 (by simp [ho2])
    rw [List.foldl_cons, ih _ h2, processObj_untouched env st o q h1]

/-- Processing a well-formed mesh deposits the complete binary encode
at its `.dcm` path. -/
theorem processObj_mesh_success (env : Env) (st : PState) (m : DecodedMesh)
    (h : meshOk m) :
    (processObj env st (.mesh m)).1
        ⟨"models", sanitize_filename m.name, "dcm"⟩ =
      some (meshSpecBytes m) := by
  have he := export_dreamcast_mesh_eq m h
  have he2 : (export_dreamcast_mesh m).2 = none := by rw [he]
  have he1 : (export_dreamcast_mesh m).1 = meshSpecBytes m := by rw [he]
  simp only [processObj, meshOps, he2, he1, applyOps, applyOp,
    List.foldl_cons, List.foldl_nil]
  simp [Path.mk.injEq]

/-! ### C9: texture encoder idempotence -/

/-- For 8-bit channels the packed RGB565 word fits 16 bits, so the
pixel loop of `create_simple_pvr` never raises. -/
theorem rgb565_lt_65536 (r g b : Nat) (hr : r ≤ 255) (hg : g ≤ 255)
    (hb : b ≤ 255) : rgb565 r g b < 65536 := by
  rw [rgb565_eq_sum r g b hr hg hb]
  omega

theorem packPixels16_ok : ∀ (pixels : List (Nat × Nat × Nat)),
    (∀ p ∈ pixels, p.1 ≤ 255 ∧ p.2.1 ≤ 255 ∧ p.2.2 ≤ 255) →
    packPixels16 pixels =
      (pixels.flatMap (fun p => le16 (rgb565 p.1 p.2.1 p.2.2)), none) := by
  intro pixels h
  induction pixels with
  | nil => simp [packPixels16]
  | cons p rest ih =>
    have hp := h p (by simp)
    have hfit : rgb565 p.1 p.2.1 p.2.2 < 65536 :=
      rgb565_lt_65536 _ _ _ hp.1 hp.2.1 hp.2.2
    have hrest : ∀ q ∈ rest, q.1 ≤ 255 ∧ q.2.1 ≤ 255 ∧ q.2.2 ≤ 255 :=
      fun q hq => h q (by simp [hq])
    simp [packPixels16, wseq, pack16, hfit, ih hrest, List.flatMap]

/-- When both dimensions fit 16 bits and every channel is 8-bit, the
fallback encoder writes the complete container and raises nothing. -/
theorem create_simple_pvr_ok (img : Img) (hw : img.width < 65536)
    (hh : img.height < 65536)
    (hpix : ∀ p ∈ img.pixels, p.1 ≤ 255 ∧ p.2.1 ≤ 255 ∧ p.2.2 ≤ 255) :
    create_simple_pvr img = (pvrContainer img, none) := by
  have h1 : pack16 img.width = (le16 img.width, none) := by simp [pack16, hw]
  have h2 : pack16 img.height = (le16 img.height, none) := by simp [pack16, hh]
  unfold create_simple_pvr
  rw [packPixels16_ok img.pixels hpix, h1, h2]
  simp [wseq, pvrContainer, png_to_raw_rgb565]

/-- C9: the fallback texture encoding is deterministic and idempotent —
re-running the texture extractor on the identical decoded texture leaves
the output tree exactly as after the first run, and (when no external
converter is available, no resize is needed, both dimensions fit the
16-bit header fields and the pixels are 8-bit RGB) the `.pvr` file at
the sanitized name holds exactly the fallback container — fixed header
plus packed pixels — after the first and the second run alike. -/
theorem textureEncoder_idempotent (env : Env) (t : DecodedTexture)
    (s : Store) (log log2 : List LogEntry) :
    (processObj env ((processObj env (s, log) (.texture2D t)).1, log2)
        (.texture2D t)).1 =
      (processObj env (s, log) (.texture2D t)).1 ∧
    (∀ img, t.image = some img → "pvr_converter" ∉ env.available →
      nearest_power_of_2 env.maxSize (img.width, img.height) =
        (img.width, img.height) →
      img.width < 65536 → img.height < 65536 →
      (∀ p ∈ img.pixels, p.1 ≤ 255 ∧ p.2.1 ≤ 255 ∧ p.2.2 ≤ 255) →
      (processObj env (s, log) (.texture2D t)).1
          ⟨"textures", sanitize_filename t.name, "pvr"⟩ =
        some (pvrContainer img) ∧
      (processObj env ((processObj env (s, log) (.texture2D t)).1, log2)
          (.texture2D t)).1
          ⟨"textures", sanitize_filename t.name, "pvr"⟩ =
        some (pvrContainer img)) := by
  have hidem : (processObj env ((processObj env (s, log) (.texture2D t)).1, log2)
      (.texture2D t)).1 = (processObj env (s, log) (.texture2D t)).1 := by
    simp only [processObj]
    exact applyOps_idem _ _
  refine ⟨hidem, ?_⟩
  intro img himg hpvr hres hw hh hpix
  have hc : ¬(nearest_power_of_2 env.maxSize (img.width, img.height) ≠
      (img.width, img.height)) := by simp [hres]
  have hok := create_simple_pvr_ok img hw hh hpix
  have hfirst : (processObj env (s, log) (.texture2D t)).1
      ⟨"textures", sanitize_filename t.name, "pvr"⟩ =
      some (pvrContainer img) := by
    simp only [processObj, textureOps, himg, if_neg hc, if_neg hpvr, hok]
    by_cases hcs : hasSub "resized".data (sanitize_filename t.name).data = true
    · simp only [if_pos hcs]
      simp [applyOps, applyOp, Path.mk.injEq]
    · simp only [if_neg hcs]
      simp [applyOps, applyOp, Path.mk.injEq]
  exact ⟨hfirst, by rw [hidem]; exact hfirst⟩

/-- Witness for C9 at a one-pixel red texture under `env0`. -/
theorem textureEncoder_idempotent_witness :
    ((processObj env0 ((processObj env0 (emptyStore, [])
        (.texture2D ⟨"px", some ⟨1, 1, [(255, 0, 0)]⟩⟩)).1, [])
        (.texture2D ⟨"px", some ⟨1, 1, [(255, 0, 0)]⟩⟩)).1 =
      (processObj env0 (emptyStore, [])
        (.texture2D ⟨"px", some ⟨1, 1, [(255, 0, 0)]⟩⟩)).1) ∧
    (processObj env0 (emptyStore, [])
        (.texture2D ⟨"px", some ⟨1, 1, [(255, 0, 0)]⟩⟩)).1
        ⟨"textures", sanitize_filename "px", "pvr"⟩ =
      some (pvrContainer ⟨1, 1, [(255, 0, 0)]⟩) := by
  have h := textureEncoder_idempotent env0 ⟨"px", some ⟨1, 1, [(255, 0, 0)]⟩⟩
    emptyStore [] []
  have hres : nearest_power_of_2 env0.maxSize
      ((⟨1, 1, [(255, 0, 0)]⟩ : Img).width,
        (⟨1, 1, [(255, 0, 0)]⟩ : Img).height) =
      ((⟨1, 1, [(255, 0, 0)]⟩ : Img).width,
        (⟨1, 1, [(255, 0, 0)]⟩ : Img).height) := by
    simp [nearest_power_of_2, Nat.clog_one_right, env0]
  exact ⟨h.1, (h.2 ⟨1, 1, [(255, 0, 0)]⟩ rfl (by decide) hres (by decide)
    (by decide) (by decide)).1⟩

/-! ### C1: driver failure isolation -/

/-- C1: a failure opening or parsing the source bundle propagates out of
`extract_assets` and aborts the run, while per-asset encoding failures
never do: with a successfully parsed bundle the driver returns normally
after folding over every object, and a well-formed mesh anywhere in the
batch gets its complete binary output even when arbitrary other assets
(before or after it) are malformed, as long as nothing else writes to
its output path. -/
theorem driver_isolation (env : Env) :
    (∀ (e : String) (init : PState),
      extract_assets env (.error e) init = .error e) ∧
    (∀ (objs : List UnityObj) (init : PState),
      extract_assets env (.ok objs) init =
        .ok (objs.foldl (processObj env) init)) ∧
    (∀ (pre post : List UnityObj) (m : DecodedMesh) (init : PState),
      meshOk m →
      (∀ o ∈ post, (⟨"models", sanitize_filename m.name, "dcm"⟩ : Path) ∉
        objPathsSup o) →
      ∃ final,
        extract_assets env (.ok (pre ++ UnityObj.mesh m :: post)) init =
          .ok final ∧
        final.1 ⟨"models", sanitize_filename m.name, "dcm"⟩ =
          some (meshSpecBytes m)) := by
  refine ⟨fun e init => rfl, fun objs init => rfl, ?_⟩
  intro pre post m init hok hpost
  refine ⟨((pre ++ UnityObj.mesh m :: post).foldl (processObj env) init),
    rfl, ?_⟩
  rw [List.foldl_append, List.foldl_cons]
  rw [foldl_untouched env post _ _ hpost]
  exact processObj_mesh_success env _ m hok

/-- Witness for C1: a malformed mesh before and after a well-formed one;
the complete 34-byte container of the well-formed mesh is still produced. -/
theorem driver_isolation_witness :
    (meshOk ⟨"good", [1, 2, 3], [0, 0, 0], none⟩ ∧
      (∀ o ∈ [UnityObj.mesh ⟨"bad2", [1, 2], [], none⟩],
        (⟨"models", sanitize_filename "good", "dcm"⟩ : Path) ∉
          objPathsSup o)) ∧
    (∃ final,
      extract_assets env0
          (.ok ([UnityObj.mesh ⟨"bad", [1, 2, 3, 4], [], none⟩] ++
            UnityObj.mesh ⟨"good", [1, 2, 3], [0, 0, 0], none⟩ ::
              [UnityObj.mesh ⟨"bad2", [1, 2], [], none⟩]))
          (emptyStore, []) = .ok final ∧
      final.1 ⟨"models", sanitize_filename "good", "dcm"⟩ =
        some (meshSpecBytes ⟨"good", [1, 2, 3], [0, 0, 0], none⟩)) := by
  refine ⟨⟨by decide, by decide⟩, ?_⟩
  exact (driver_isolation env0).2.2
    [UnityObj.mesh ⟨"bad", [1, 2, 3, 4], [], none⟩]
    [UnityObj.mesh ⟨"bad2", [1, 2], [], none⟩]
    ⟨"good", [1, 2, 3], [0, 0, 0], none⟩ (emptyStore, [])
    (by decide) (by decide)

end Dreamcast
